import Mathlib

/-!
Verification development for the mxp-agents-runtime agent SDK.

This file shallowly embeds the core components of the runtime — the
lifecycle state machine, the rule-based policy engine, the call-execution
pipeline, the volatile memory ring, the memory-record builder, the JSON
serialization of memory records with the file journal, and the task
scheduler — and proves the behavioural properties stated in the
specification about them.

Modelling conventions:
 - Rust `u8`/`usize` values are `Nat`; byte strings are `List Nat`.
 - `f32` payload values carried through serialization (never operated on
   arithmetically) are modelled as rationals; the code guarantees they are
   finite, and finite `f32` values embed injectively into `ℚ`.
 - Fallible Rust functions returning `Result` are `Except`; `Option`
   mirrors `Option`.
 - External collaborators (the serde_json text layer, tool executors,
   model adapters) are parameters of the pipeline environment.
-/

/-- JSON values, the model of `serde_json::Value` used for memory-record
serialization and for policy-context metadata. -/
inductive Json where
  | null : Json
  | bool (b : Bool) : Json
  | num (q : ℚ) : Json
  | str (s : String) : Json
  | arr (elems : List Json) : Json
  | obj (fields : List (String × Json)) : Json
deriving Repr

/-! ## Lifecycle state machine (agent-kernel/src/lifecycle.rs) -/

/-- States an agent can occupy during its lifetime (`AgentState`). -/
inductive AgentState where
  | Init | Ready | Active | Suspended | Retiring | Terminated
deriving DecidableEq, Repr

/-- Events that trigger lifecycle transitions (`LifecycleEvent`). -/
inductive LifecycleEvent where
  | Boot | Activate | Suspend | Resume | Retire | Terminate | Abort
deriving DecidableEq, Repr

/-- Lifecycle state manager (`Lifecycle`): agent id plus current state. -/
structure Lifecycle where
  agentId : Nat
  state : AgentState
deriving DecidableEq, Repr

/-- Error emitted by the lifecycle controller (`LifecycleError`), naming the
agent, the prior state and the offending event. -/
structure LifecycleError where
  agentId : Nat
  fromState : AgentState
  event : LifecycleEvent
deriving DecidableEq, Repr

/-- The `match (self.state, event)` arms of `Lifecycle::transition`,
transcribed from the source. -/
def nextState : AgentState → LifecycleEvent → Option AgentState
  | .Init, .Boot => some .Ready
  | .Ready, .Activate => some .Active
  | .Suspended, .Resume => some .Active
  | .Ready, .Retire => some .Retiring
  | .Active, .Retire => some .Retiring
  | .Suspended, .Retire => some .Retiring
  | .Active, .Suspend => some .Suspended
  | .Retiring, .Terminate => some .Terminated
  | .Terminated, .Terminate => some .Terminated
  | _, .Abort => some .Terminated
  | _, _ => none

/-- Source `Lifecycle::transition`: applies an event, returning the (possibly
updated) lifecycle together with either the resulting state and a flag
recording whether a state-change debug event was emitted (the source logs
only when `next_state != self.state`), or the `InvalidTransition` error.
On error the lifecycle is returned unchanged, mirroring the fact that the
source only assigns `self.state` on the accepted path. -/
def Lifecycle.transition (l : Lifecycle) (e : LifecycleEvent) :
    Lifecycle × Except LifecycleError (AgentState × Bool) :=
  match nextState l.state e with
  | none => (l, .error ⟨l.agentId, l.state, e⟩)
  | some ns => ({ l with state := ns }, .ok (ns, ns != l.state))

/-- The §4.2 transition table exactly as enumerated by the specification
(rows = current state, cells = next state on event, `none` = rejected).
Written from the spec's words, independently of the compact `match` in the
source, to be compared with it. -/
def specTable : AgentState → LifecycleEvent → Option AgentState
  | .Init, .Boot => some .Ready
  | .Init, .Activate => none
  | .Init, .Suspend => none
  | .Init, .Resume => none
  | .Init, .Retire => none
  | .Init, .Terminate => none
  | .Init, .Abort => some .Terminated
  | .Ready, .Boot => none
  | .Ready, .Activate => some .Active
  | .Ready, .Suspend => none
  | .Ready, .Resume => none
  | .Ready, .Retire => some .Retiring
  | .Ready, .Terminate => none
  | .Ready, .Abort => some .Terminated
  | .Active, .Boot => none
  | .Active, .Activate => none
  | .Active, .Suspend => some .Suspended
  | .Active, .Resume => none
  | .Active, .Retire => some .Retiring
  | .Active, .Terminate => none
  | .Active, .Abort => some .Terminated
  | .Suspended, .Boot => none
  | .Suspended, .Activate => none
  | .Suspended, .Suspend => none
  | .Suspended, .Resume => some .Active
  | .Suspended, .Retire => some .Retiring
  | .Suspended, .Terminate => none
  | .Suspended, .Abort => some .Terminated
  | .Retiring, .Boot => none
  | .Retiring, .Activate => none
  | .Retiring, .Suspend => none
  | .Retiring, .Resume => none
  | .Retiring, .Retire => none
  | .Retiring, .Terminate => some .Terminated
  | .Retiring, .Abort => some .Terminated
  | .Terminated, .Boot => none
  | .Terminated, .Activate => none
  | .Terminated, .Suspend => none
  | .Terminated, .Resume => none
  | .Terminated, .Retire => none
  | .Terminated, .Terminate => some .Terminated
  | .Terminated, .Abort => some .Terminated

/-- C1: for every current agent state and lifecycle event, `transition`
returns exactly the next state given by the §4.2 table, with a change
event emitted only when the state actually changes; for every unlisted
pair it returns an `InvalidTransition` error naming the agent id, the
prior state and the event, and leaves the state unchanged. -/
theorem lifecycle_transition_matches_spec_table (l : Lifecycle) (e : LifecycleEvent) :
    Lifecycle.transition l e =
      match specTable l.state e with
      | some s' => ({ l with state := s' }, .ok (s', s' != l.state))
      | none => (l, .error ⟨l.agentId, l.state, e⟩) := by
  obtain ⟨a, s⟩ := l
  cases s <;> cases e <;> rfl

/-! ## Policy contracts and engine (agent-policy/src/{contracts,decision,engine}.rs) -/

/-- Kinds of policy decision (`DecisionKind`). -/
inductive DecisionKind where
  | Allow | Deny | Escalate
deriving DecidableEq, Repr

/-- Policy decision (`PolicyDecision`): kind, optional reason, approver list
(meaningful only for `Escalate`). -/
structure PolicyDecision where
  kind : DecisionKind
  reason : Option String
  requiredApprovals : List String
deriving Repr

/-- Source `PolicyDecision::allow`. -/
def PolicyDecision.allow : PolicyDecision := ⟨.Allow, none, []⟩

/-- Source `PolicyDecision::deny`. -/
def PolicyDecision.deny (reason : String) : PolicyDecision := ⟨.Deny, some reason, []⟩

/-- Source `PolicyDecision::escalate`. -/
def PolicyDecision.escalate (reason : String) (approvers : List String) : PolicyDecision :=
  ⟨.Escalate, some reason, approvers⟩

/-- Policy action variants (`PolicyAction`). -/
inductive PolicyAction where
  | InvokeTool (name : String)
  | ModelInference (provider : String) (model : String)
  | EmitEvent (eventType : String)
deriving DecidableEq, Repr

/-- Source `PolicyAction::label`: concise human-readable subject label. -/
def PolicyAction.label : PolicyAction → String
  | .InvokeTool name => "tool `" ++ name ++ "`"
  | .ModelInference provider model => "model `" ++ provider ++ "/" ++ model ++ "`"
  | .EmitEvent eventType => "event `" ++ eventType ++ "`"

/-- Context supplied to a policy evaluation (`PolicyContext`): metadata map
and tag set. The `BTreeSet` of tags is modelled as a list; only membership
matters for the evaluation semantics. -/
structure PolicyContext where
  metadata : List (String × Json)
  tags : List String
deriving Repr

/-- Policy request (`PolicyRequest`). -/
structure PolicyRequest where
  agentId : Nat
  action : PolicyAction
  context : PolicyContext
deriving Repr

/-- Action-shape matcher (`ActionMatcher`). -/
inductive ActionMatcher where
  | Any
  | Tool (name : Option String)
  | Model (provider : Option String) (model : Option String)
  | Event (eventType : Option String)
deriving Repr

/-- Source `ActionMatcher::matches`: tests the request action against the matcher
shape; `Option.all` mirrors Rust's `Option::is_none_or`. -/
def ActionMatcher.matches : ActionMatcher → PolicyAction → Bool
  | .Any, _ => true
  | .Tool name, .InvokeTool actionName => name.all (fun expected => expected == actionName)
  | .Model provider model, .ModelInference actionProvider actionModel =>
      provider.all (fun expected => expected == actionProvider)
        && model.all (fun expected => expected == actionModel)
  | .Event eventType, .EmitEvent actionEvent =>
      eventType.all (fun expected => expected == actionEvent)
  | _, _ => false

/-- Rule matcher (`RuleMatcher`): an action matcher plus required tags. -/
structure RuleMatcher where
  action : ActionMatcher
  requiredTags : List String
deriving Repr

/-- Source `RuleMatcher::matches`: the action matcher must fit the action and
every required tag must be present in the request context's tag set. -/
def RuleMatcher.matches (m : RuleMatcher) (request : PolicyRequest) : Bool :=
  m.action.matches request.action
    && m.requiredTags.all (fun tag => request.context.tags.contains tag)

/-- Rule consisting of a name, a matcher and a resulting decision
(`PolicyRule`). -/
structure PolicyRule where
  name : String
  matcher : RuleMatcher
  decision : PolicyDecision
deriving Repr

/-- Source `RuleBasedEngine::evaluate`: iterates the rules in insertion order and
returns the first match's decision, or a clone of the default decision when
no rule matches. The rule list and default decision are the engine's state. -/
def evalRules (rules : List PolicyRule) (defaultDecision : PolicyDecision)
    (request : PolicyRequest) : PolicyDecision :=
  match rules with
  | [] => defaultDecision
  | r :: rest =>
      if r.matcher.matches request then r.decision
      else evalRules rest defaultDecision request

/-- The matcher acceptance condition exactly as the claim words it: the
action matcher fits the action shape (Any accepts all; Tool accepts only
InvokeTool, with name equality when a name is set; Model accepts only
ModelInference, with equality on each set field; Event accepts only
EmitEvent, with equality when the event type is set), and every required
tag is present in the request context's tag set. -/
def matcherSpec (m : RuleMatcher) (request : PolicyRequest) : Prop :=
  (match m.action, request.action with
   | .Any, _ => True
   | .Tool name, .InvokeTool actionName =>
       ∀ expected, name = some expected → expected = actionName
   | .Model provider model, .ModelInference actionProvider actionModel =>
       (∀ expected, provider = some expected → expected = actionProvider)
         ∧ (∀ expected, model = some expected → expected = actionModel)
   | .Event eventType, .EmitEvent actionEvent =>
       ∀ expected, eventType = some expected → expected = actionEvent
   | _, _ => False)
  ∧ ∀ tag ∈ m.requiredTags, tag ∈ request.context.tags

/-- Characterization of `ActionMatcher::matches` as the propositional
shape condition used by `matcherSpec`. -/
lemma actionMatcher_matches_iff (m : ActionMatcher) (a : PolicyAction) :
    m.matches a = true ↔
      (match m, a with
       | .Any, _ => True
       | .Tool name, .InvokeTool actionName =>
           ∀ expected, name = some expected → expected = actionName
       | .Model provider model, .ModelInference actionProvider actionModel =>
           (∀ expected, provider = some expected → expected = actionProvider)
             ∧ (∀ expected, model = some expected → expected = actionModel)
       | .Event eventType, .EmitEvent actionEvent =>
           ∀ expected, eventType = some expected → expected = actionEvent
       | _, _ => False) := by
  cases m with
  | Any => cases a <;> simp [ActionMatcher.matches]
  | Tool name =>
      cases a <;> cases name <;> simp [ActionMatcher.matches, Option.all]
  | Model provider model =>
      cases a <;> cases provider <;> cases model <;>
        simp [ActionMatcher.matches, Option.all]
  | Event eventType =>
      cases a <;> cases eventType <;> simp [ActionMatcher.matches, Option.all]

/-- C4: `evaluate` returns the decision of the first rule in insertion
order whose matcher accepts the request (the default decision when none
does), and a matcher accepts exactly under the action-shape and
required-tag conditions stated in the specification. -/
theorem rule_engine_first_match_semantics (rules : List PolicyRule)
    (defaultDecision : PolicyDecision) (request : PolicyRequest) :
    (evalRules rules defaultDecision request =
      match rules.find? (fun r => r.matcher.matches request) with
      | some r => r.decision
      | none => defaultDecision)
    ∧ (∀ m : RuleMatcher, m.matches request = true ↔ matcherSpec m request) := by
  constructor
  · induction rules with
    | nil => rfl
    | cons r rest ih =>
        by_cases h : r.matcher.matches request = true
        · simp [evalRules, List.find?, h]
        · simp only [Bool.not_eq_true] at h
          simp [evalRules, List.find?, h, ih]
  · intro m
    unfold RuleMatcher.matches matcherSpec
    rw [Bool.and_eq_true]
    rw [actionMatcher_matches_iff]
    constructor
    · rintro ⟨ha, ht⟩
      refine ⟨ha, ?_⟩
      intro tag htag
      have := List.all_eq_true.mp ht tag htag
      simpa using this
    · rintro ⟨ha, ht⟩
      refine ⟨ha, ?_⟩
      refine List.all_eq_true.mpr ?_
      intro tag htag
      simpa using ht tag htag

/-! ## Memory records and builder (agent-memory/src/record.rs) -/

/-- Channel categorising a memory entry (`MemoryChannel`). -/
inductive MemoryChannel where
  | Input | Output | Tool | System | Custom (label : String)
deriving DecidableEq, Repr

/-- Errors from the memory subsystem (`MemoryError`); only the variant the
modelled code produces is needed. -/
inductive MemoryError where
  | invalidRecord (msg : String)
deriving DecidableEq, Repr

/-- A single captured piece of memory (`MemoryRecord`). The 128-bit `Uuid`
is modelled by its canonical text form, the `SystemTime` by its
`(secs_since_epoch, nanos_since_epoch)` pair, the payload `Bytes` by a
list of byte values, and the optional `EmbeddingVector` by a list of
rationals standing for its finite `f32` entries. -/
structure MemoryRecord where
  id : String
  timestamp : Nat × Nat
  channel : MemoryChannel
  payload : List Nat
  tags : List String
  metadata : List (String × Json)
  embedding : Option (List ℚ)
deriving Repr

/-- Builder for memory records (`MemoryRecordBuilder`); holds exactly the
fields of the record being assembled. -/
structure MemoryRecordBuilder where
  id : String
  timestamp : Nat × Nat
  channel : MemoryChannel
  payload : List Nat
  tags : List String
  metadata : List (String × Json)
  embedding : Option (List ℚ)
deriving Repr

/-- Source `MemoryRecordBuilder::tag`: adds a single tag after validating that it
is not empty or whitespace-only. -/
def MemoryRecordBuilder.tag (b : MemoryRecordBuilder) (t : String) :
    Except MemoryError MemoryRecordBuilder :=
  if t.trim = "" then .error (.invalidRecord "memory tags must not be empty")
  else .ok { b with tags := b.tags ++ [t] }

/-- Source `MemoryRecordBuilder::tags`: extends the builder with multiple tags,
failing on the first invalid one (named `addTags` because the field
projection already uses the source name). -/
def MemoryRecordBuilder.addTags (b : MemoryRecordBuilder) (ts : List String) :
    Except MemoryError MemoryRecordBuilder :=
  ts.foldlM MemoryRecordBuilder.tag b

/-- Source `MemoryRecordBuilder::metadata`: inserts a metadata entry. -/
def MemoryRecordBuilder.insertMetadata (b : MemoryRecordBuilder) (key : String)
    (value : Json) : MemoryRecordBuilder :=
  { b with metadata := b.metadata ++ [(key, value)] }

/-- Source `MemoryRecordBuilder::build`: finalises the builder. The source's
return type is `MemoryResult<MemoryRecord>` but the body is a plain `Ok`
of the assembled record. -/
def MemoryRecordBuilder.build (b : MemoryRecordBuilder) :
    Except MemoryError MemoryRecord :=
  .ok ⟨b.id, b.timestamp, b.channel, b.payload, b.tags, b.metadata, b.embedding⟩

/-- Source `EmbeddingVector::new`: rejects an empty vector. The non-finite check
of the source is vacuous in the rational model, where every value stands
for a finite `f32`. -/
def EmbeddingVector.new (values : List ℚ) : Except MemoryError (List ℚ) :=
  if values = [] then .error (.invalidRecord "embedding vector must not be empty")
  else .ok values

/-- C10: `build()` always returns `Ok` — its error branch is unreachable —
for every builder state (in particular every state reachable through the
mutators), while tag validation is performed by `tag`/`tags` and embedding
validation at `EmbeddingVector` construction. -/
theorem builder_build_always_ok :
    (∀ b : MemoryRecordBuilder, ∃ r, b.build = Except.ok r)
    ∧ (∀ (b : MemoryRecordBuilder) (t : String), t.trim = "" →
        ∃ e, b.tag t = Except.error e)
    ∧ (∀ (b : MemoryRecordBuilder) (t : String), t.trim ≠ "" →
        b.tag t = Except.ok { b with tags := b.tags ++ [t] })
    ∧ (∃ e, EmbeddingVector.new [] = Except.error e) := by
  refine ⟨?_, ?_, ?_, ?_⟩
  · intro b
    exact ⟨_, rfl⟩
  · intro b t h
    refine ⟨.invalidRecord "memory tags must not be empty", ?_⟩
    simp [MemoryRecordBuilder.tag, h]
  · intro b t h
    simp [MemoryRecordBuilder.tag, h]
  · exact ⟨.invalidRecord "embedding vector must not be empty", rfl⟩

/-! ## Volatile ring (agent-memory/src/volatile.rs) -/

/-- Configuration for the volatile buffer (`VolatileConfig`): entry
capacity (a `NonZeroUsize` in the source) and optional total-byte cap. -/
structure VolatileConfig where
  capacity : Nat
  maxTotalBytes : Option Nat
deriving Repr

/-- Internal state of the volatile buffer (`VolatileInner`): the entries
(front of the `VecDeque` = head of the list = oldest) and the tracked
total payload bytes. -/
structure VolatileInner where
  entries : List MemoryRecord
  totalBytes : Nat
deriving Repr

/-- First eviction loop of `VolatileMemory::push`: while more entries than
the capacity remain, pop the oldest and subtract its payload length
(`saturating_sub` coincides with truncated `Nat` subtraction). -/
def evictOverCount (capacity : Nat) : List MemoryRecord → Nat → List MemoryRecord × Nat
  | [], total => ([], total)
  | r :: rest, total =>
      if capacity < (r :: rest).length then
        evictOverCount capacity rest (total - r.payload.length)
      else (r :: rest, total)

/-- Second eviction loop of `VolatileMemory::push`: while the byte total
exceeds the limit and more than one entry remains, pop the oldest. -/
def evictOverBytes (limit : Nat) : List MemoryRecord → Nat → List MemoryRecord × Nat
  | [], total => ([], total)
  | r :: rest, total =>
      if limit < total ∧ 1 < (r :: rest).length then
        evictOverBytes limit rest (total - r.payload.length)
      else (r :: rest, total)

/-- Source `VolatileMemory::push`: append the record, add its payload length to
the byte total, then run the capacity eviction loop and (when a byte cap
is configured) the byte eviction loop. -/
def VolatileMemory.push (config : VolatileConfig) (s : VolatileInner)
    (record : MemoryRecord) : VolatileInner :=
  let total := s.totalBytes + record.payload.length
  let entries := s.entries ++ [record]
  let counted := evictOverCount config.capacity entries total
  match config.maxTotalBytes with
  | none => ⟨counted.1, counted.2⟩
  | some limit =>
      let bounded := evictOverBytes limit counted.1 counted.2
      ⟨bounded.1, bounded.2⟩

/-- The capacity loop leaves at most `capacity` entries. -/
lemma evictOverCount_length_le (capacity : Nat) (es : List MemoryRecord) (total : Nat) :
    (evictOverCount capacity es total).1.length ≤ capacity := by
  induction es generalizing total with
  | nil => simp [evictOverCount]
  | cons r rest ih =>
      by_cases h : capacity < (r :: rest).length
      · rw [evictOverCount, if_pos h]
        exact ih (total - r.payload.length)
      · rw [evictOverCount, if_neg h]
        simp only [List.length_cons] at h ⊢
        omega

/-- The capacity loop never empties a non-empty buffer when the capacity
is at least one. -/
lemma evictOverCount_ne_nil (capacity : Nat) (hcap : 1 ≤ capacity)
    (es : List MemoryRecord) (total : Nat) (hne : es ≠ []) :
    (evictOverCount capacity es total).1 ≠ [] := by
  induction es generalizing total with
  | nil => exact absurd rfl hne
  | cons r rest ih =>
      by_cases h : capacity < (r :: rest).length
      · have hrest : rest ≠ [] := by
          intro hr
          subst hr
          simp only [List.length_cons, List.length_nil] at h
          omega
        rw [evictOverCount, if_pos h]
        exact ih (total - r.payload.length) hrest
      · rw [evictOverCount, if_neg h]
        simp

/-- The byte loop only removes entries. -/
lemma evictOverBytes_length_le (limit : Nat) (es : List MemoryRecord) (total : Nat) :
    (evictOverBytes limit es total).1.length ≤ es.length := by
  induction es generalizing total with
  | nil => simp [evictOverBytes]
  | cons r rest ih =>
      by_cases h : limit < total ∧ 1 < (r :: rest).length
      · rw [evictOverBytes, if_pos h]
        have := ih (total - r.payload.length)
        simp only [List.length_cons]
        omega
      · rw [evictOverBytes, if_neg h]

/-- The byte loop terminates with the byte total under the limit or with
at most one entry. -/
lemma evictOverBytes_post (limit : Nat) (es : List MemoryRecord) (total : Nat) :
    (evictOverBytes limit es total).2 ≤ limit
      ∨ (evictOverBytes limit es total).1.length ≤ 1 := by
  induction es generalizing total with
  | nil => right; simp [evictOverBytes]
  | cons r rest ih =>
      by_cases h : limit < total ∧ 1 < (r :: rest).length
      · rw [evictOverBytes, if_pos h]
        exact ih (total - r.payload.length)
      · rw [evictOverBytes, if_neg h]
        rw [Classical.not_and_iff_or_not_not] at h
        rcases h with h | h
        · left
          simp only
          omega
        · right
          simp only [List.length_cons] at h ⊢
          omega

/-- The byte loop never empties a non-empty buffer. -/
lemma evictOverBytes_ne_nil (limit : Nat) (es : List MemoryRecord) (total : Nat)
    (hne : es ≠ []) : (evictOverBytes limit es total).1 ≠ [] := by
  induction es generalizing total with
  | nil => exact absurd rfl hne
  | cons r rest ih =>
      by_cases h : limit < total ∧ 1 < (r :: rest).length
      · have hrest : rest ≠ [] := by
          intro hr
          subst hr
          simp only [List.length_cons, List.length_nil] at h
          omega
        rw [evictOverBytes, if_pos h]
        exact ih (total - r.payload.length) hrest
      · rw [evictOverBytes, if_neg h]
        simp

/-- C6: for every volatile configuration with capacity at least one and
every state and pushed record, after the push the entry count is at most
the capacity, and when a byte cap is set either the tracked byte total is
at most the cap or exactly one entry remains. Since this holds for pushes
from arbitrary states, it holds after each push of any push sequence. -/
theorem volatile_push_capacity_and_byte_invariants (config : VolatileConfig)
    (s : VolatileInner) (record : MemoryRecord) (hcap : 1 ≤ config.capacity) :
    (VolatileMemory.push config s record).entries.length ≤ config.capacity
    ∧ ∀ limit, config.maxTotalBytes = some limit →
        (VolatileMemory.push config s record).totalBytes ≤ limit
          ∨ (VolatileMemory.push config s record).entries.length = 1 := by
  obtain ⟨capacity, maxBytes⟩ := config
  simp only at hcap
  cases maxBytes with
  | none =>
      refine ⟨?_, ?_⟩
      · simpa [VolatileMemory.push] using evictOverCount_length_le capacity
          (s.entries ++ [record]) (s.totalBytes + record.payload.length)
      · intro limit hlim
        simp at hlim
  | some limit =>
      have hne : s.entries ++ [record] ≠ [] := by simp
      have h1 := evictOverCount_length_le capacity
        (s.entries ++ [record]) (s.totalBytes + record.payload.length)
      have h2 := evictOverCount_ne_nil capacity hcap
        (s.entries ++ [record]) (s.totalBytes + record.payload.length) hne
      have h3 := evictOverBytes_length_le limit
        (evictOverCount capacity (s.entries ++ [record])
          (s.totalBytes + record.payload.length)).1
        (evictOverCount capacity (s.entries ++ [record])
          (s.totalBytes + record.payload.length)).2
      have h4 := evictOverBytes_post limit
        (evictOverCount capacity (s.entries ++ [record])
          (s.totalBytes + record.payload.length)).1
        (evictOverCount capacity (s.entries ++ [record])
          (s.totalBytes + record.payload.length)).2
      have h5 := evictOverBytes_ne_nil limit
        (evictOverCount capacity (s.entries ++ [record])
          (s.totalBytes + record.payload.length)).1
        (evictOverCount capacity (s.entries ++ [record])
          (s.totalBytes + record.payload.length)).2 h2
      have h6 : (evictOverBytes limit
          (evictOverCount capacity (s.entries ++ [record])
            (s.totalBytes + record.payload.length)).1
          (evictOverCount capacity (s.entries ++ [record])
            (s.totalBytes + record.payload.length)).2).1.length ≠ 0 :=
        fun hz => h5 (List.length_eq_zero.mp hz)
      refine ⟨?_, ?_⟩
      · simp only [VolatileMemory.push]
        omega
      · intro limit' hlim'
        simp only [Option.some.injEq] at hlim'
        subst hlim'
        simp only [VolatileMemory.push]
        omega

/-- Witness for C6 at a concrete configuration, state and record. -/
theorem volatile_push_invariants_witness :
    1 ≤ (2 : Nat)
    ∧ ((VolatileMemory.push ⟨2, some 4⟩ ⟨[], 0⟩
          ⟨"", (0, 0), .Input, [0, 1, 2], [], [], none⟩).entries.length ≤ 2
        ∧ ∀ limit, (some 4 : Option Nat) = some limit →
            (VolatileMemory.push ⟨2, some 4⟩ ⟨[], 0⟩
                ⟨"", (0, 0), .Input, [0, 1, 2], [], [], none⟩).totalBytes ≤ limit
              ∨ (VolatileMemory.push ⟨2, some 4⟩ ⟨[], 0⟩
                  ⟨"", (0, 0), .Input, [0, 1, 2], [], [], none⟩).entries.length = 1) :=
  ⟨by decide,
   volatile_push_capacity_and_byte_invariants ⟨2, some 4⟩ ⟨[], 0⟩
     ⟨"", (0, 0), .Input, [0, 1, 2], [], [], none⟩ (by decide)⟩

/-! ## Call pipeline (agent-kernel/src/call.rs) -/

/-- Handler errors are `HandlerError::custom(message)` throughout the call
pipeline; the model carries just the message string. -/
abbrev HandlerError := String

/-- Role of a prompt message (`MessageRole`). -/
inductive MessageRole where
  | System | User | Assistant | Tool
deriving DecidableEq, Repr

/-- Conversation message (`PromptMessage`). -/
structure PromptMessage where
  role : MessageRole
  content : String
deriving DecidableEq, Repr

/-- Requested tool invocation inside a call payload (`ToolInvocation`). -/
structure ToolInvocation where
  name : String
  input : Json
deriving Repr

/-- Decoded JSON call payload (`CallPayload`). -/
structure CallPayload where
  messages : List PromptMessage
  temperature : Option ℚ
  maxOutputTokens : Option Nat
  tools : List ToolInvocation
deriving Repr

/-- Result of an executed tool invocation (`ToolInvocationResult`). -/
structure ToolInvocationResult where
  name : String
  output : Json
deriving Repr

/-- Outcome of processing a call message (`CallOutcome`). -/
structure CallOutcome where
  response : String
  toolResults : List ToolInvocationResult
deriving Repr

/-- Registered tool metadata relevant to the pipeline (`ToolMetadata`):
version, optional description, capability identifiers. -/
structure ToolMetadata where
  version : String
  description : Option String
  capabilities : List String
deriving Repr

/-- Environment of a `KernelMessageHandler`: the external collaborators
(JSON text codec of serde_json, the tool registry and executors, the model
adapter) together with the configured policy engine and memory bus.
Policy engines are modelled by their pure evaluation function — the
rule-based engine of `agent-policy` is one — and the memory bus by the
flag saying one is configured; the pipeline result collects the records
written to it. -/
structure PipelineEnv where
  decodeCall : List Nat → Option CallPayload
  encodeJsonBytes : Json → List Nat
  jsonStr : Json → String
  registry : String → Option ToolMetadata
  invokeTool : String → Json → Except String Json
  adapter : List PromptMessage → Except String String
  provider : String
  model : String
  policy : Option (PolicyRequest → PolicyDecision)
  memoryConfigured : Bool

/-- Handler context for a call message (`HandlerContext`): agent id and
the raw message payload bytes. -/
structure CallCtx where
  agentId : Nat
  payload : List Nat
deriving Repr

/-- Source `enforce_decision`: allow passes; deny fails with the
`policy denied <subject>: <reason>` message; escalate fails with the
`policy escalation required for <subject>: <detail>` message where the
detail carries the approver list only when it is non-empty. -/
def enforceDecision (decision : PolicyDecision) (subject : String) :
    Except HandlerError Unit :=
  match decision.kind with
  | .Allow => .ok ()
  | .Deny =>
      let reason := decision.reason.getD "policy denied the request"
      .error ("policy denied " ++ subject ++ ": " ++ reason)
  | .Escalate =>
      let reason := decision.reason.getD "policy escalation required"
      let detail :=
        if decision.requiredApprovals.isEmpty then reason
        else reason ++ " (approvers: "
          ++ String.intercalate ", " decision.requiredApprovals ++ ")"
      .error ("policy escalation required for " ++ subject ++ ": " ++ detail)

/-- Debug rendering of a memory channel (`format!("{:?}", channel)`),
used in the metadata of memory-policy requests. -/
def channelDebug : MemoryChannel → String
  | .Input => "Input"
  | .Output => "Output"
  | .Tool => "Tool"
  | .System => "System"
  | .Custom label => "Custom(\"" ++ label ++ "\")"

/-- Source `PolicyRequest::from_memory_record`: an `EmitEvent` request for the
`memory_record` event type carrying the record's channel, tags and id as
metadata and the record's tags as context tags. -/
def PolicyRequest.fromMemoryRecord (agentId : Nat) (record : MemoryRecord) :
    PolicyRequest :=
  { agentId := agentId
    action := .EmitEvent "memory_record"
    context :=
      { metadata :=
          [("channel", .str (channelDebug record.channel)),
           ("tags", .arr (record.tags.map Json.str)),
           ("id", .str record.id)]
        tags := record.tags } }

/-- Source `KernelMessageHandler::enforce_memory_policy`: with no policy engine
the check passes; otherwise evaluate the memory-record request and enforce
the decision under the request's subject label. -/
def enforceMemoryPolicy (env : PipelineEnv) (agentId : Nat)
    (record : MemoryRecord) : Except HandlerError Unit :=
  match env.policy with
  | none => .ok ()
  | some p =>
      let request := PolicyRequest.fromMemoryRecord agentId record
      enforceDecision (p request) request.action.label

/-- The inbound transcript record built by `record_inbound`: `Input`
channel, the raw payload bytes, the `mxp.call` tag and the direction
metadata. The freshly generated record id and timestamp are abstracted to
fixed values; no claim depends on them. -/
def inboundRecord (ctx : CallCtx) : MemoryRecord :=
  { id := ""
    timestamp := (0, 0)
    channel := .Input
    payload := ctx.payload
    tags := ["mxp.call"]
    metadata :=
      [("direction", .str "inbound"), ("message_type", .str "call"),
       ("agent_id", .str (toString ctx.agentId))]
    embedding := none }

/-- Source `KernelMessageHandler::record_inbound`: with no memory bus this is a
no-op; otherwise build the inbound record, run the memory-policy check,
and record it. Returns the records written. -/
def recordInbound (env : PipelineEnv) (ctx : CallCtx) :
    Except HandlerError (List MemoryRecord) :=
  if env.memoryConfigured then
    match enforceMemoryPolicy env ctx.agentId (inboundRecord ctx) with
    | .error e => .error e
    | .ok () => .ok [inboundRecord ctx]
  else .ok []

/-- Source `parse_payload`: an empty payload fails with `call payload missing`;
otherwise the JSON text layer decodes the call payload or the pipeline
fails with the decode-failure message. -/
def parsePayload (env : PipelineEnv) (ctx : CallCtx) :
    Except HandlerError CallPayload :=
  if ctx.payload = [] then .error "call payload missing"
  else
    match env.decodeCall ctx.payload with
    | none => .error "failed to decode call payload"
    | some payload => .ok payload

/-- Source `CallExecutor::enforce_tool_policy`: with no policy engine the check
passes; otherwise build an `InvokeTool` request carrying the input as
metadata and — when the tool is registered — its version, description and
capabilities, with one `cap:<id>` tag per capability, then enforce the
evaluated decision. -/
def enforceToolPolicy (env : PipelineEnv) (ctx : CallCtx)
    (invocation : ToolInvocation) : Except HandlerError Unit :=
  match env.policy with
  | none => .ok ()
  | some p =>
      let base : List (String × Json) := [("input", invocation.input)]
      let context :=
        match env.registry invocation.name with
        | none => PolicyContext.mk base []
        | some meta =>
            let withVersion := base ++ [("tool_version", .str meta.version)]
            let withDescription :=
              match meta.description with
              | none => withVersion
              | some d => withVersion ++ [("tool_description", .str d)]
            if meta.capabilities.isEmpty then
              PolicyContext.mk withDescription []
            else
              PolicyContext.mk
                (withDescription ++
                  [("capabilities", .arr (meta.capabilities.map Json.str))])
                (meta.capabilities.map (fun c => "cap:" ++ c))
      let request : PolicyRequest :=
        { agentId := ctx.agentId, action := .InvokeTool invocation.name,
          context := context }
      enforceDecision (p request) request.action.label

/-- Source `CallExecutor::enforce_inference_policy`: with no policy engine the
check passes; otherwise build a `ModelInference` request from the adapter
metadata, carrying the message count and — when tools ran — the tool-name
list and one `tool:<name>` tag per tool, then enforce the decision. -/
def enforceInferencePolicy (env : PipelineEnv) (ctx : CallCtx)
    (messageCount : Nat) (toolNames : List String) : Except HandlerError Unit :=
  match env.policy with
  | none => .ok ()
  | some p =>
      let base : List (String × Json) := [("message_count", .num messageCount)]
      let context :=
        if toolNames.isEmpty then PolicyContext.mk base []
        else
          PolicyContext.mk (base ++ [("tools", .arr (toolNames.map Json.str))])
            (toolNames.map (fun n => "tool:" ++ n))
      let request : PolicyRequest :=
        { agentId := ctx.agentId,
          action := .ModelInference env.provider env.model, context := context }
      enforceDecision (p request) request.action.label

/-- The tool-invocation loop of `CallExecutor::execute`: for each
invocation in payload order, enforce the tool policy, invoke the tool via
the registry (mapping errors to `tool <name> failed`), append a
`Tool`-role conversation message with the JSON-serialized output, and
retain the result. -/
def runTools (env : PipelineEnv) (ctx : CallCtx) :
    List ToolInvocation → List PromptMessage → List ToolInvocationResult →
    Except HandlerError (List PromptMessage × List ToolInvocationResult)
  | [], messages, results => .ok (messages, results)
  | invocation :: rest, messages, results =>
      match enforceToolPolicy env ctx invocation with
      | .error e => .error e
      | .ok () =>
          match env.invokeTool invocation.name invocation.input with
          | .error e => .error ("tool `" ++ invocation.name ++ "` failed: " ++ e)
          | .ok output =>
              runTools env ctx rest
                (messages ++ [⟨.Tool, env.jsonStr output⟩])
                (results ++ [⟨invocation.name, output⟩])

/-- Source `CallExecutor::execute`: decode the payload, run the tool loop,
enforce the inference policy, build the inference request (whose
construction rejects an empty message list), invoke the adapter (mapping
errors to the adapter-error message) and assemble the outcome. The
chunk-stream concatenation is abstracted into the adapter function. -/
def executeCall (env : PipelineEnv) (ctx : CallCtx) :
    Except HandlerError CallOutcome :=
  match parsePayload env ctx with
  | .error e => .error e
  | .ok payload =>
      match runTools env ctx payload.tools payload.messages [] with
      | .error e => .error e
      | .ok (messages, results) =>
          match enforceInferencePolicy env ctx messages.length
              (results.map (fun r => r.name)) with
          | .error e => .error e
          | .ok () =>
              if messages = [] then .error "invalid request: messages must not be empty"
              else
                match env.adapter messages with
                | .error e =>
                    .error ("adapter `" ++ env.provider ++ "` for model `"
                      ++ env.model ++ "` error: " ++ e)
                | .ok response => .ok ⟨response, results⟩

/-- The `Tool`-channel record written by `record_outbound` for one tool
result: JSON-encoded output as payload, `mxp.call` and `tool` tags, and
the direction and tool-name metadata. -/
def toolRecord (env : PipelineEnv) (result : ToolInvocationResult) : MemoryRecord :=
  { id := ""
    timestamp := (0, 0)
    channel := .Tool
    payload := env.encodeJsonBytes result.output
    tags := ["mxp.call", "tool"]
    metadata := [("direction", .str "tool"), ("tool_name", .str result.name)]
    embedding := none }

/-- The `Output`-channel record written by `record_outbound`: the response
text bytes as payload (bytes abstracted to the code points of the text),
the `mxp.call` tag and the outbound metadata. -/
def outputRecord (outcome : CallOutcome) : MemoryRecord :=
  { id := ""
    timestamp := (0, 0)
    channel := .Output
    payload := outcome.response.toList.map Char.toNat
    tags := ["mxp.call"]
    metadata := [("direction", .str "outbound"), ("message_type", .str "call")]
    embedding := none }

/-- The per-tool-result loop of `record_outbound`: each record passes the
memory-policy check before being written; a failure keeps the records
already written. -/
def outboundToolLoop (env : PipelineEnv) (agentId : Nat) :
    List ToolInvocationResult → List MemoryRecord × Option HandlerError
  | [] => ([], none)
  | result :: rest =>
      match enforceMemoryPolicy env agentId (toolRecord env result) with
      | .error e => ([], some e)
      | .ok () =>
          (toolRecord env result :: (outboundToolLoop env agentId rest).1,
           (outboundToolLoop env agentId rest).2)

/-- Source `KernelMessageHandler::record_outbound`: with no memory bus this is a
no-op; otherwise write one `Tool` record per tool result in order, then
the `Output` record, each under the memory-policy check. Returns the
records written together with the error that halted the loop, if any. -/
def recordOutbound (env : PipelineEnv) (agentId : Nat) (outcome : CallOutcome) :
    List MemoryRecord × Option HandlerError :=
  if env.memoryConfigured then
    match outboundToolLoop env agentId outcome.toolResults with
    | (written, some e) => (written, some e)
    | (written, none) =>
        match enforceMemoryPolicy env agentId (outputRecord outcome) with
        | .error e => (written, some e)
        | .ok () => (written ++ [outputRecord outcome], none)
  else ([], none)

/-- Observable result of `KernelMessageHandler::handle_call`: the memory
records written to the bus in order, whether the outcome sink was invoked,
and the handler result. -/
structure PipeResult where
  written : List MemoryRecord
  sinkInvoked : Bool
  result : Except HandlerError Unit
deriving Repr

/-- Source `KernelMessageHandler::handle_call`: record the inbound transcript,
execute the call, record the outbound transcript, then hand the outcome to
the sink. A failure at any step halts and propagates, keeping the records
already written. -/
def handleCall (env : PipelineEnv) (ctx : CallCtx) : PipeResult :=
  match recordInbound env ctx with
  | .error e => ⟨[], false, .error e⟩
  | .ok inbound =>
      match executeCall env ctx with
      | .error e => ⟨inbound, false, .error e⟩
      | .ok outcome =>
          match recordOutbound env ctx.agentId outcome with
          | (outbound, some e) => ⟨inbound ++ outbound, false, .error e⟩
          | (outbound, none) => ⟨inbound ++ outbound, true, .ok ()⟩

/-- Enforcing an allow decision succeeds. -/
lemma enforceDecision_of_allow (d : PolicyDecision) (subject : String)
    (h : d.kind = .Allow) : enforceDecision d subject = .ok () := by
  unfold enforceDecision
  rw [h]

/-- With an allow-all policy engine the memory-policy check passes. -/
lemma enforceMemoryPolicy_allow (env : PipelineEnv) (agentId : Nat)
    (record : MemoryRecord) (p : PolicyRequest → PolicyDecision)
    (hpol : env.policy = some p)
    (hallow : ∀ r, (p r).kind = DecisionKind.Allow) :
    enforceMemoryPolicy env agentId record = .ok () := by
  unfold enforceMemoryPolicy
  rw [hpol]
  exact enforceDecision_of_allow _ _ (hallow _)

/-- With an allow-all policy engine the tool-policy check passes. -/
lemma enforceToolPolicy_allow (env : PipelineEnv) (ctx : CallCtx)
    (invocation : ToolInvocation) (p : PolicyRequest → PolicyDecision)
    (hpol : env.policy = some p)
    (hallow : ∀ r, (p r).kind = DecisionKind.Allow) :
    enforceToolPolicy env ctx invocation = .ok () := by
  unfold enforceToolPolicy
  rw [hpol]
  exact enforceDecision_of_allow _ _ (hallow _)

/-- With an allow-all policy engine the inference-policy check passes. -/
lemma enforceInferencePolicy_allow (env : PipelineEnv) (ctx : CallCtx)
    (messageCount : Nat) (toolNames : List String)
    (p : PolicyRequest → PolicyDecision) (hpol : env.policy = some p)
    (hallow : ∀ r, (p r).kind = DecisionKind.Allow) :
    enforceInferencePolicy env ctx messageCount toolNames = .ok () := by
  unfold enforceInferencePolicy
  rw [hpol]
  exact enforceDecision_of_allow _ _ (hallow _)

/-- A successful payload parse means the payload was non-empty and the
JSON layer decoded it. -/
lemma parsePayload_ok (env : PipelineEnv) (ctx : CallCtx) (payload : CallPayload)
    (h : parsePayload env ctx = .ok payload) :
    ctx.payload ≠ [] ∧ env.decodeCall ctx.payload = some payload := by
  unfold parsePayload at h
  by_cases he : ctx.payload = []
  · simp [he] at h
  · rw [if_neg he] at h
    cases hd : env.decodeCall ctx.payload with
    | none => simp [hd] at h
    | some q =>
        simp only [hd] at h
        injection h with h2
        exact ⟨he, by rw [h2]⟩

/-- The tool loop produces one result per invocation. -/
lemma runTools_ok_length (env : PipelineEnv) (ctx : CallCtx)
    (invs : List ToolInvocation) :
    ∀ (msgs : List PromptMessage) (res : List ToolInvocationResult) msgs' res',
      runTools env ctx invs msgs res = .ok (msgs', res') →
      res'.length = res.length + invs.length := by
  induction invs with
  | nil =>
      intro msgs res msgs' res' h
      simp only [runTools, Except.ok.injEq, Prod.mk.injEq] at h
      simp [h.2.symm]
  | cons inv rest ih =>
      intro msgs res msgs' res' h
      unfold runTools at h
      cases htp : enforceToolPolicy env ctx inv with
      | error e => simp [htp] at h
      | ok u =>
          cases u
          simp only [htp] at h
          cases hiv : env.invokeTool inv.name inv.input with
          | error e => simp [hiv] at h
          | ok output =>
              simp only [hiv] at h
              have := ih _ _ _ _ h
              simp only [List.length_append, List.length_cons, List.length_nil] at this ⊢
              omega

/-- A successful call execution decodes the payload and carries one tool
result per requested tool invocation. -/
lemma executeCall_ok_decode (env : PipelineEnv) (ctx : CallCtx)
    (outcome : CallOutcome) (h : executeCall env ctx = .ok outcome) :
    ∃ payload, env.decodeCall ctx.payload = some payload
      ∧ outcome.toolResults.length = payload.tools.length := by
  unfold executeCall at h
  cases hp : parsePayload env ctx with
  | error e => simp [hp] at h
  | ok payload =>
      obtain ⟨hne, hdec⟩ := parsePayload_ok env ctx payload hp
      simp only [hp] at h
      cases hr : runTools env ctx payload.tools payload.messages [] with
      | error e => simp [hr] at h
      | ok pr =>
          obtain ⟨messages, results⟩ := pr
          have hlen := runTools_ok_length env ctx payload.tools
            payload.messages [] messages results hr
          simp only [hr] at h
          cases hi : enforceInferencePolicy env ctx messages.length
              (results.map (fun r => r.name)) with
          | error e => simp [hi] at h
          | ok u =>
              cases u
              simp only [hi] at h
              by_cases hm : messages = []
              · simp [hm] at h
              · rw [if_neg hm] at h
                cases ha : env.adapter messages with
                | error e => simp [ha] at h
                | ok response =>
                    simp only [ha, Except.ok.injEq] at h
                    refine ⟨payload, hdec, ?_⟩
                    rw [← h]
                    simpa using hlen

/-- Under an allow-all policy the outbound tool loop writes exactly one
`Tool` record per result, in order, without error. -/
lemma outboundToolLoop_allow (env : PipelineEnv) (agentId : Nat)
    (p : PolicyRequest → PolicyDecision) (hpol : env.policy = some p)
    (hallow : ∀ r, (p r).kind = DecisionKind.Allow)
    (results : List ToolInvocationResult) :
    outboundToolLoop env agentId results = (results.map (toolRecord env), none) := by
  induction results with
  | nil => rfl
  | cons result rest ih =>
      unfold outboundToolLoop
      rw [enforceMemoryPolicy_allow env agentId _ p hpol hallow]
      simp [ih]

/-- Under an allow-all policy with a configured memory bus,
`record_outbound` writes the tool records in order followed by the output
record. -/
lemma recordOutbound_allow (env : PipelineEnv) (agentId : Nat)
    (outcome : CallOutcome) (p : PolicyRequest → PolicyDecision)
    (hmem : env.memoryConfigured = true) (hpol : env.policy = some p)
    (hallow : ∀ r, (p r).kind = DecisionKind.Allow) :
    recordOutbound env agentId outcome
      = (outcome.toolResults.map (toolRecord env) ++ [outputRecord outcome], none) := by
  unfold recordOutbound
  rw [hmem]
  simp only [if_true]
  rw [outboundToolLoop_allow env agentId p hpol hallow]
  rw [enforceMemoryPolicy_allow env agentId _ p hpol hallow]

/-- Channels of the tool records are all `Tool`. -/
lemma map_channel_toolRecord (env : PipelineEnv)
    (results : List ToolInvocationResult) :
    (results.map (toolRecord env)).map (fun r => r.channel)
      = results.map (fun _ => MemoryChannel.Tool) := by
  induction results with
  | nil => rfl
  | cons result rest ih => simp [toolRecord, ih]

/-- C2: with a configured memory bus and an allow-all policy engine, a
successfully handled call writes exactly `1 + T + 1` memory records, where
`T` is the number of tool invocations in the decoded payload: the `Input`
record first, then one `Tool` record per tool result in payload order,
then the `Output` record last. -/
theorem call_pipeline_memory_record_count (env : PipelineEnv) (ctx : CallCtx)
    (p : PolicyRequest → PolicyDecision)
    (hmem : env.memoryConfigured = true)
    (hpol : env.policy = some p)
    (hallow : ∀ r, (p r).kind = DecisionKind.Allow)
    (hok : (handleCall env ctx).result = Except.ok ()) :
    ∃ payload, env.decodeCall ctx.payload = some payload
      ∧ (handleCall env ctx).written.map (fun r => r.channel)
          = MemoryChannel.Input ::
              (payload.tools.map (fun _ => MemoryChannel.Tool)
                ++ [MemoryChannel.Output])
      ∧ (handleCall env ctx).written.length = 1 + payload.tools.length + 1 := by
  have hin : recordInbound env ctx = .ok [inboundRecord ctx] := by
    unfold recordInbound
    rw [hmem]
    simp only [if_true]
    rw [enforceMemoryPolicy_allow env ctx.agentId _ p hpol hallow]
  cases hex : executeCall env ctx with
  | error e =>
      exfalso
      unfold handleCall at hok
      simp only [hin, hex] at hok
      exact Except.noConfusion hok
  | ok outcome =>
      obtain ⟨payload, hdec, hlen⟩ := executeCall_ok_decode env ctx outcome hex
      have hout := recordOutbound_allow env ctx.agentId outcome p hmem hpol hallow
      have hwritten : (handleCall env ctx).written
          = inboundRecord ctx ::
              (outcome.toolResults.map (toolRecord env) ++ [outputRecord outcome]) := by
        unfold handleCall
        simp only [hin, hex, hout]
        simp
      refine ⟨payload, hdec, ?_, ?_⟩
      · rw [hwritten]
        simp only [List.map_cons, List.map_append, map_channel_toolRecord]
        have : payload.tools.map (fun _ => MemoryChannel.Tool)
            = outcome.toolResults.map (fun _ => MemoryChannel.Tool) := by
          rw [List.map_const', List.map_const', hlen]
        rw [this]
        rfl
      · rw [hwritten]
        simp [hlen]
        omega

/-- Concrete pipeline environment for evaluating the record-count theorem:
allow-all policy, configured memory bus, one tool invocation that echoes
its input, and an adapter that answers directly. -/
def c2Env : PipelineEnv :=
  { decodeCall := fun _ =>
      some ⟨[⟨.User, "hi"⟩], none, none, [⟨"echo", .null⟩]⟩
    encodeJsonBytes := fun _ => []
    jsonStr := fun _ => ""
    registry := fun _ => none
    invokeTool := fun _ input => .ok input
    adapter := fun _ => .ok "done"
    provider := "prov"
    model := "mod"
    policy := some (fun _ => PolicyDecision.allow)
    memoryConfigured := true }

/-- Concrete handler context for the record-count witness. -/
def c2Ctx : CallCtx := ⟨7, [1, 2]⟩

/-- Witness for C2: the record-count theorem applied at a concrete
environment and call, all hypotheses discharged by evaluation. -/
theorem call_pipeline_memory_record_count_witness :
    c2Env.memoryConfigured = true
    ∧ (handleCall c2Env c2Ctx).result = Except.ok ()
    ∧ ∃ payload, c2Env.decodeCall c2Ctx.payload = some payload
        ∧ (handleCall c2Env c2Ctx).written.map (fun r => r.channel)
            = MemoryChannel.Input ::
                (payload.tools.map (fun _ => MemoryChannel.Tool)
                  ++ [MemoryChannel.Output])
        ∧ (handleCall c2Env c2Ctx).written.length = 1 + payload.tools.length + 1 :=
  ⟨rfl, rfl,
   call_pipeline_memory_record_count c2Env c2Ctx (fun _ => PolicyDecision.allow)
     rfl rfl (fun _ => rfl) rfl⟩

/-- When the decode step cannot succeed, `execute` fails with the decode
error: `call payload missing` for an empty payload, the decode-failure
message otherwise. -/
lemma executeCall_decode_failure (env : PipelineEnv) (ctx : CallCtx)
    (h : ctx.payload = [] ∨ env.decodeCall ctx.payload = none) :
    executeCall env ctx = .error
      (if ctx.payload = [] then "call payload missing"
       else "failed to decode call payload") := by
  unfold executeCall parsePayload
  by_cases he : ctx.payload = []
  · simp [he]
  · rcases h with h | h
    · exact absurd h he
    · simp [he, h]

/-- Shape of a successful inbound-record step: nothing is written without
a memory bus, exactly the inbound `Input` record is written with one. -/
lemma recordInbound_ok_shape (env : PipelineEnv) (ctx : CallCtx)
    (inbound : List MemoryRecord) (h : recordInbound env ctx = .ok inbound) :
    (env.memoryConfigured = false ∧ inbound = [])
      ∨ (env.memoryConfigured = true ∧ inbound = [inboundRecord ctx]) := by
  unfold recordInbound at h
  cases hm : env.memoryConfigured with
  | false =>
      rw [hm] at h
      simp only [Bool.false_eq_true, if_false, Except.ok.injEq] at h
      exact Or.inl ⟨rfl, h.symm⟩
  | true =>
      rw [hm] at h
      simp only [if_true] at h
      cases hp : enforceMemoryPolicy env ctx.agentId (inboundRecord ctx) with
      | error e => simp [hp] at h
      | ok u =>
          cases u
          simp only [hp, Except.ok.injEq] at h
          exact Or.inr ⟨rfl, h.symm⟩

/-- Concrete pipeline environment whose JSON layer rejects every payload,
with a configured memory bus and no policy engine. -/
def c3Env : PipelineEnv :=
  { decodeCall := fun _ => none
    encodeJsonBytes := fun _ => []
    jsonStr := fun _ => ""
    registry := fun _ => none
    invokeTool := fun _ input => .ok input
    adapter := fun _ => .ok "done"
    provider := "prov"
    model := "mod"
    policy := none
    memoryConfigured := true }

/-- Concrete handler context with a non-empty, undecodable payload. -/
def c3Ctx : CallCtx := ⟨3, [1, 2, 3]⟩

/-- Counterexample to C3: at a call whose payload does not decode, with a
configured memory bus, the pipeline does fail with the decode error, but
an inbound `Input`-channel memory record has already been written — the
claim's "no memory record is written" is false because `handle_call`
records the inbound transcript before the executor decodes the payload. -/
theorem decode_failure_still_writes_inbound_record :
    c3Env.decodeCall c3Ctx.payload = none
    ∧ (handleCall c3Env c3Ctx).result = .error "failed to decode call payload"
    ∧ (handleCall c3Env c3Ctx).written = [inboundRecord c3Ctx]
    ∧ (handleCall c3Env c3Ctx).written ≠ [] := by
  refine ⟨rfl, rfl, rfl, ?_⟩
  show [inboundRecord c3Ctx] ≠ []
  exact List.cons_ne_nil _ _

/-- C3 as amended: for every call whose payload is empty or does not
decode, the pipeline fails, the outcome sink is not invoked, and no Tool-
or Output-channel record is written; when the inbound step succeeded the
failure is exactly the Decode error and the records written are exactly
those of the inbound step — the single inbound `Input` record when a
memory bus is configured. -/
theorem decode_failure_pipeline_behavior (env : PipelineEnv) (ctx : CallCtx)
    (h : ctx.payload = [] ∨ env.decodeCall ctx.payload = none) :
    (handleCall env ctx).result.isOk = false
    ∧ (handleCall env ctx).sinkInvoked = false
    ∧ (∀ r ∈ (handleCall env ctx).written, r.channel = MemoryChannel.Input)
    ∧ (handleCall env ctx).written.length ≤ 1
    ∧ (∀ inbound, recordInbound env ctx = .ok inbound →
        (handleCall env ctx).result = .error
            (if ctx.payload = [] then "call payload missing"
             else "failed to decode call payload")
          ∧ (handleCall env ctx).written = inbound
          ∧ (env.memoryConfigured = true → inbound = [inboundRecord ctx])) := by
  have hex := executeCall_decode_failure env ctx h
  cases hin : recordInbound env ctx with
  | error e =>
      have hcall : handleCall env ctx = ⟨[], false, .error e⟩ := by
        unfold handleCall
        simp only [hin]
      rw [hcall]
      refine ⟨rfl, rfl, ?_, ?_, ?_⟩
      · intro r hr
        simp at hr
      · simp
      · intro inbound hi
        simp at hi
  | ok inbound =>
      have hcall : handleCall env ctx = ⟨inbound, false,
          .error (if ctx.payload = [] then "call payload missing"
            else "failed to decode call payload")⟩ := by
        unfold handleCall
        simp only [hin, hex]
      rcases recordInbound_ok_shape env ctx inbound hin with ⟨hm, hsh⟩ | ⟨hm, hsh⟩ <;>
        subst hsh <;> rw [hcall]
      · refine ⟨rfl, rfl, ?_, ?_, ?_⟩
        · intro r hr
          simp at hr
        · simp
        · intro inbound' hi
          injection hi with h2
          subst h2
          exact ⟨rfl, rfl, fun hmem => absurd hm (by simp [hmem])⟩
      · refine ⟨rfl, rfl, ?_, ?_, ?_⟩
        · intro r hr
          simp at hr
          subst hr
          rfl
        · simp
        · intro inbound' hi
          injection hi with h2
          subst h2
          exact ⟨rfl, rfl, fun _ => rfl⟩

/-- Witness for the amended C3 at the concrete undecodable call. -/
theorem decode_failure_pipeline_behavior_witness :
    c3Env.decodeCall c3Ctx.payload = none
    ∧ ((handleCall c3Env c3Ctx).result.isOk = false
        ∧ (handleCall c3Env c3Ctx).sinkInvoked = false
        ∧ (∀ r ∈ (handleCall c3Env c3Ctx).written, r.channel = MemoryChannel.Input)
        ∧ (handleCall c3Env c3Ctx).written.length ≤ 1
        ∧ (∀ inbound, recordInbound c3Env c3Ctx = .ok inbound →
            (handleCall c3Env c3Ctx).result = .error
                (if c3Ctx.payload = [] then "call payload missing"
                 else "failed to decode call payload")
              ∧ (handleCall c3Env c3Ctx).written = inbound
              ∧ (c3Env.memoryConfigured = true → inbound = [inboundRecord c3Ctx]))) :=
  ⟨rfl, decode_failure_pipeline_behavior c3Env c3Ctx (Or.inr rfl)⟩

/-- The escalate-error message exactly in the form the specification
claims: `policy escalation required for <subject>: <reason>
(approvers: <list>)`, with the list rendered as the comma-joined
approvers. Written from the spec's words, to be compared with the
message the code produces. -/
def escalateClaimMsg (subject reason : String) (approvers : List String) : String :=
  "policy escalation required for " ++ subject ++ ": " ++ reason
    ++ " (approvers: " ++ String.intercalate ", " approvers ++ ")"

/-- Counterexample to C5: for an escalate decision with an empty approver
list the code's message omits the `(approvers: <list>)` suffix entirely,
so it is not of the form the claim states. -/
theorem escalate_empty_approvers_message_counterexample :
    enforceDecision (PolicyDecision.escalate "r" []) "tool `t`"
      = .error "policy escalation required for tool `t`: r"
    ∧ "policy escalation required for tool `t`: r"
        ≠ escalateClaimMsg "tool `t`" "r" [] := by
  refine ⟨rfl, ?_⟩
  decide

/-- The outcome sink is invoked only on the fully successful path. -/
lemma handleCall_sink_implies_ok (env : PipelineEnv) (ctx : CallCtx) :
    (handleCall env ctx).sinkInvoked = true →
    (handleCall env ctx).result = Except.ok () := by
  unfold handleCall
  cases recordInbound env ctx with
  | error e => simp
  | ok inbound =>
      cases executeCall env ctx with
      | error e => simp
      | ok outcome =>
          rcases hro : recordOutbound env ctx.agentId outcome with ⟨outbound, err⟩
          cases err <;> simp [hro]

/-- C5 as amended: a Deny decision halts enforcement with exactly the
`policy denied <subject>: <reason>` message; an Escalate decision halts it
with `policy escalation required for <subject>: <reason>` carrying the
` (approvers: <list>)` suffix exactly when the approver list is non-empty;
and whenever the pipeline fails the outcome sink is not invoked. -/
theorem policy_enforcement_messages_and_sink (d : PolicyDecision)
    (subject : String) (env : PipelineEnv) (ctx : CallCtx) :
    (d.kind = .Deny →
      enforceDecision d subject = .error
        ("policy denied " ++ subject ++ ": "
          ++ d.reason.getD "policy denied the request"))
    ∧ (d.kind = .Escalate → d.requiredApprovals ≠ [] →
      enforceDecision d subject = .error
        (escalateClaimMsg subject (d.reason.getD "policy escalation required")
          d.requiredApprovals))
    ∧ (d.kind = .Escalate → d.requiredApprovals = [] →
      enforceDecision d subject = .error
        ("policy escalation required for " ++ subject ++ ": "
          ++ d.reason.getD "policy escalation required"))
    ∧ ((handleCall env ctx).result.isOk = false →
        (handleCall env ctx).sinkInvoked = false) := by
  refine ⟨?_, ?_, ?_, ?_⟩
  · intro h
    unfold enforceDecision
    rw [h]
  · intro h hne
    have hisEmpty : d.requiredApprovals.isEmpty = false := by
      cases hra : d.requiredApprovals with
      | nil => exact absurd hra hne
      | cons a rest => simp
    simp [enforceDecision, h, hisEmpty, escalateClaimMsg, String.append_assoc]
  · intro h hempty
    unfold enforceDecision
    rw [h, hempty]
    rfl
  · intro h
    by_cases hs : (handleCall env ctx).sinkInvoked = true
    · have := handleCall_sink_implies_ok env ctx hs
      rw [this] at h
      simp [Except.isOk, Except.toBool] at h
    · simpa using hs

/-- Witness for the amended C5: the Deny and Escalate message shapes and
the sink conjunct evaluated at concrete decisions and at the concrete
failing call of the decode counterexample. -/
theorem policy_enforcement_messages_witness :
    enforceDecision (PolicyDecision.deny "blocked") "tool `t`"
      = .error "policy denied tool `t`: blocked"
    ∧ enforceDecision (PolicyDecision.escalate "needs approval" ["secops"]) "tool `t`"
      = .error (escalateClaimMsg "tool `t`" "needs approval" ["secops"])
    ∧ ((handleCall c3Env c3Ctx).result.isOk = false →
        (handleCall c3Env c3Ctx).sinkInvoked = false) :=
  ⟨(policy_enforcement_messages_and_sink (PolicyDecision.deny "blocked")
      "tool `t`" c3Env c3Ctx).1 rfl,
   (policy_enforcement_messages_and_sink
      (PolicyDecision.escalate "needs approval" ["secops"])
      "tool `t`" c3Env c3Ctx).2.1 rfl (by decide),
   (policy_enforcement_messages_and_sink (PolicyDecision.deny "blocked")
      "tool `t`" c3Env c3Ctx).2.2.2⟩

/-! ## Task scheduler (agent-kernel/src/scheduler.rs) -/

/-- Scheduler errors (`SchedulerError`); the only variant is `Closed`. -/
inductive SchedulerError where
  | Closed
deriving DecidableEq, Repr

/-- Phase of a spawned task: queued behind the permit semaphore, running
with a permit, finished, or panicked because the semaphore was closed
while it was still waiting (the documented panic of `spawn`'s inner
task). -/
inductive TaskPhase where
  | queued | running | done | panicked
deriving DecidableEq, Repr

/-- State of a `TaskScheduler`: the closed flag (the `AtomicBool` set
together with the semaphore close), the available semaphore permits, and
the spawned tasks with their phases. -/
structure SchedState where
  closed : Bool
  available : Nat
  tasks : List (Nat × TaskPhase)
deriving DecidableEq, Repr

/-- Source `TaskScheduler::new`: open scheduler with `n` permits and no tasks. -/
def TaskScheduler.new (n : Nat) : SchedState := ⟨false, n, []⟩

/-- Interleaving events of the scheduler model: `close`, `spawn`, a queued
task acquiring its permit, and a running task finishing (releasing the
permit). -/
inductive SchedOp where
  | close
  | spawn (id : Nat)
  | acquire (id : Nat)
  | finish (id : Nat)
deriving DecidableEq, Repr

/-- Updates the phase of the identified task. -/
def setPhase (id : Nat) (phase : TaskPhase) :
    List (Nat × TaskPhase) → List (Nat × TaskPhase) :=
  List.map (fun t => if t.1 = id then (t.1, phase) else t)

/-- One step of the scheduler model. `close` sets the closed flag (and
closes the semaphore). `spawn` enqueues a task unless the scheduler is
closed. `acquire` moves a queued task to running when a permit is free,
and panics it when the semaphore is closed. `finish` completes a running
task and releases its permit. -/
def SchedState.step (s : SchedState) : SchedOp → SchedState
  | .close => { s with closed := true }
  | .spawn id =>
      if s.closed then s else { s with tasks := s.tasks ++ [(id, .queued)] }
  | .acquire id =>
      match s.tasks.lookup id with
      | some .queued =>
          if s.closed then { s with tasks := setPhase id .panicked s.tasks }
          else if 0 < s.available then
            { s with available := s.available - 1,
                     tasks := setPhase id .running s.tasks }
          else s
      | _ => s
  | .finish id =>
      match s.tasks.lookup id with
      | some .running =>
          { s with available := s.available + 1, tasks := setPhase id .done s.tasks }
      | _ => s

/-- The result `spawn` would return in the given state: `Closed` when the
scheduler has been closed, success otherwise. -/
def spawnResult (s : SchedState) : Except SchedulerError Unit :=
  if s.closed then .error .Closed else .ok ()

/-- Runs a sequence of scheduler events. -/
def runOps (s : SchedState) (ops : List SchedOp) : SchedState :=
  ops.foldl SchedState.step s

/-- No operation ever clears the closed flag. -/
lemma step_preserves_closed (s : SchedState) (op : SchedOp)
    (h : s.closed = true) : (s.step op).closed = true := by
  cases op with
  | close => rfl
  | spawn id => simp [SchedState.step, h]
  | acquire id =>
      simp only [SchedState.step]
      cases List.lookup id s.tasks with
      | none => exact h
      | some phase => cases phase <;> simp [h]
  | finish id =>
      simp only [SchedState.step]
      cases List.lookup id s.tasks with
      | none => exact h
      | some phase => cases phase <;> simp [h]

/-- The closed flag persists through any event sequence. -/
lemma runOps_preserves_closed (ops : List SchedOp) :
    ∀ s : SchedState, s.closed = true → (runOps s ops).closed = true := by
  induction ops with
  | nil => intro s h; exact h
  | cons op rest ih =>
      intro s h
      exact ih (s.step op) (step_preserves_closed s op h)

/-- C9: `close()` is idempotent; after a close, every later `spawn` on the
scheduler — across any interleaving of further close, spawn, acquire and
finish events — fails with the `SchedulerClosed` error; and a task that
was enqueued (and had acquired its permit) before the close can still run
to completion afterwards, witnessed by a concrete trace. -/
theorem scheduler_close_semantics :
    (∀ s : SchedState, (s.step .close).step .close = s.step .close)
    ∧ (∀ (s : SchedState) (ops : List SchedOp),
        spawnResult (runOps (s.step .close) ops) = .error SchedulerError.Closed)
    ∧ ((runOps (TaskScheduler.new 1)
          [.spawn 0, .acquire 0, .close, .finish 0]).tasks.lookup 0
        = some TaskPhase.done) := by
  refine ⟨?_, ?_, ?_⟩
  · intro s
    rfl
  · intro s ops
    have hclosed : (runOps (s.step .close) ops).closed = true :=
      runOps_preserves_closed ops (s.step .close) rfl
    unfold spawnResult
    rw [hclosed]
    rfl
  · rfl

/-! ## Memory-record JSON serialization and the file journal
(agent-memory/src/record.rs serde derives, agent-memory/src/journal.rs) -/

/-- Element-wise decoding of a JSON sequence, failing on the first element
the given decoder rejects — the behaviour of serde sequence visitors. -/
def mapOption (f : α → Option β) : List α → Option (List β)
  | [] => some []
  | a :: rest =>
      match f a, mapOption f rest with
      | some b, some bs => some (b :: bs)
      | _, _ => none

/-- Serialization of `MemoryChannel` under the derived serde impl with
`rename_all = "snake_case"`: unit variants become strings, the `Custom`
newtype variant becomes a single-field object. -/
def encodeChannel : MemoryChannel → Json
  | .Input => .str "input"
  | .Output => .str "output"
  | .Tool => .str "tool"
  | .System => .str "system"
  | .Custom label => .obj [("custom", .str label)]

/-- Deserialization of `MemoryChannel` (the derived impl performs no
validation on the `Custom` label). -/
def decodeChannel : Json → Option MemoryChannel
  | .str s =>
      if s = "input" then some .Input
      else if s = "output" then some .Output
      else if s = "tool" then some .Tool
      else if s = "system" then some .System
      else none
  | .obj [("custom", .str label)] => some (.Custom label)
  | _ => none

/-- Serialization of `SystemTime` (serde renders it as a struct with the
seconds and nanoseconds since the epoch). -/
def encodeTime (t : Nat × Nat) : Json :=
  .obj [("secs_since_epoch", .num t.1), ("nanos_since_epoch", .num t.2)]

/-- Deserialization of an unsigned integer field. -/
def asNatNum : Json → Option Nat
  | .num q => if q.den = 1 ∧ 0 ≤ q.num then some q.num.toNat else none
  | _ => none

/-- Deserialization of `SystemTime`. -/
def decodeTime : Json → Option (Nat × Nat)
  | .obj fields =>
      match fields.lookup "secs_since_epoch", fields.lookup "nanos_since_epoch" with
      | some sj, some nj =>
          match asNatNum sj, asNatNum nj with
          | some s, some n => some (s, n)
          | _, _ => none
      | _, _ => none
  | _ => none

/-- Deserialization of one `u8`: an integral number in `0..=255`. -/
def asByte : Json → Option Nat
  | .num q => if q.den = 1 ∧ 0 ≤ q.num ∧ q.num ≤ 255 then some q.num.toNat else none
  | _ => none

/-- Serialization of `Bytes`: a JSON array of byte values. -/
def encodeBytes (payload : List Nat) : Json :=
  .arr (payload.map (fun (b : Nat) => Json.num (b : ℚ)))

/-- Deserialization of `Bytes`. -/
def decodeBytes : Json → Option (List Nat)
  | .arr elems => mapOption asByte elems
  | _ => none

/-- Deserialization of one string. -/
def asStr : Json → Option String
  | .str s => some s
  | _ => none

/-- Deserialization of a string list (the `tags` field). -/
def decodeTags : Json → Option (List String)
  | .arr elems => mapOption asStr elems
  | _ => none

/-- Deserialization of an object (the `metadata` map, whose entries a
`serde_json::Map` reproduces exactly). -/
def asObj : Json → Option (List (String × Json))
  | .obj fields => some fields
  | _ => none

/-- Deserialization of one number. -/
def asNum : Json → Option ℚ
  | .num q => some q
  | _ => none

/-- Deserialization of `EmbeddingVector`: a number sequence passed through
`EmbeddingVector::new`, which refuses an empty vector (the non-finite
check is vacuous in the rational model). -/
def decodeEmbedding : Json → Option (List ℚ)
  | .arr elems =>
      match mapOption asNum elems with
      | none => none
      | some values => if values = [] then none else some values
  | _ => none

/-- Serialization of `MemoryRecord` under the derived serde impl: fields
in declaration order, the embedding omitted when `none`
(`skip_serializing_if = "Option::is_none"`). -/
def encodeRecord (r : MemoryRecord) : Json :=
  .obj ([("id", .str r.id),
         ("timestamp", encodeTime r.timestamp),
         ("channel", encodeChannel r.channel),
         ("payload", encodeBytes r.payload),
         ("tags", .arr (r.tags.map Json.str)),
         ("metadata", .obj r.metadata)]
    ++ (match r.embedding with
        | none => []
        | some e => [("embedding", .arr (e.map Json.num))]))

/-- Deserialization of `MemoryRecord`: id, timestamp, channel and payload
are required; `tags` and `metadata` fall back to their serde defaults when
missing; a missing `embedding` is `none`. -/
def decodeRecord (j : Json) : Option MemoryRecord :=
  match j with
  | .obj fields =>
      match fields.lookup "id", fields.lookup "timestamp",
            fields.lookup "channel", fields.lookup "payload" with
      | some idj, some tsj, some chj, some pj =>
          match asStr idj, decodeTime tsj, decodeChannel chj, decodeBytes pj with
          | some i, some ts, some ch, some payload =>
              match (match fields.lookup "tags" with
                     | none => some []
                     | some tj => decodeTags tj),
                    (match fields.lookup "metadata" with
                     | none => some []
                     | some mj => asObj mj),
                    (match fields.lookup "embedding" with
                     | none => some none
                     | some ej => (decodeEmbedding ej).map some) with
              | some tags, some metadata, some embedding =>
                  some ⟨i, ts, ch, payload, tags, metadata, embedding⟩
              | _, _, _ => none
          | _, _, _, _ => none
      | _, _, _, _ => none
  | _ => none

/-- Validity of a memory record as the code constructs them: payload
entries are bytes, and an attached embedding is non-empty (guaranteed by
`EmbeddingVector::new`). -/
def validRecord (r : MemoryRecord) : Prop :=
  (∀ b ∈ r.payload, b ≤ 255) ∧ (∀ e, r.embedding = some e → e ≠ [])

/-- The journal file as the list of its newline-delimited JSON lines (the
compact serialization of a record contains no raw newline byte, so one
appended record is one line; the empty segment after the final newline is
skipped by `tail`). -/
def journalAppend (file : List Json) (r : MemoryRecord) : List Json :=
  file ++ [encodeRecord r]

/-- Source `FileJournal::tail`: a zero limit short-circuits to the empty list;
otherwise every line is deserialized (any failure propagates) and the last
`limit` records are returned in order. -/
def journalTail (limit : Nat) (file : List Json) : Option (List MemoryRecord) :=
  if limit = 0 then some []
  else
    match mapOption decodeRecord file with
    | none => none
    | some records =>
        if records.length ≤ limit then some records
        else some (records.drop (records.length - limit))

/-- Decoding inverts encoding element-wise. -/
lemma mapOption_map (f : β → Option α) (g : α → β) (l : List α)
    (h : ∀ a ∈ l, f (g a) = some a) : mapOption f (l.map g) = some l := by
  induction l with
  | nil => rfl
  | cons a rest ih =>
      simp only [List.map_cons, mapOption]
      rw [h a (by simp), ih (fun x hx => h x (by simp [hx]))]

/-- A byte value round-trips through its JSON number. -/
lemma asByte_encode (b : Nat) (h : b ≤ 255) : asByte (.num b) = some b := by
  simp [asByte]
  exact_mod_cast h

/-- Channel serialization round-trips. -/
lemma decodeChannel_encodeChannel (ch : MemoryChannel) :
    decodeChannel (encodeChannel ch) = some ch := by
  cases ch <;> simp [encodeChannel, decodeChannel]

/-- Timestamp serialization round-trips. -/
lemma decodeTime_encodeTime (t : Nat × Nat) :
    decodeTime (encodeTime t) = some t := by
  obtain ⟨s, n⟩ := t
  simp [encodeTime, decodeTime, List.lookup, asNatNum]

/-- Payload serialization round-trips for byte-valued payloads. -/
lemma decodeBytes_encodeBytes (payload : List Nat) (h : ∀ b ∈ payload, b ≤ 255) :
    decodeBytes (encodeBytes payload) = some payload := by
  simp only [encodeBytes, decodeBytes]
  exact mapOption_map asByte (fun b => Json.num (b : ℚ)) payload
    (fun b hb => asByte_encode b (h b hb))

/-- Tag serialization round-trips. -/
lemma decodeTags_encodeTags (tags : List String) :
    decodeTags (.arr (tags.map Json.str)) = some tags := by
  simp only [decodeTags]
  exact mapOption_map asStr Json.str tags (fun t _ => rfl)

/-- Embedding serialization round-trips for non-empty embeddings. -/
lemma decodeEmbedding_encode (e : List ℚ) (h : e ≠ []) :
    decodeEmbedding (.arr (e.map Json.num)) = some e := by
  simp only [decodeEmbedding]
  rw [mapOption_map asNum Json.num e (fun q _ => rfl)]
  simp [h]

/-- Record serialization round-trips on every valid record. -/
lemma decodeRecord_encodeRecord (r : MemoryRecord) (hr : validRecord r) :
    decodeRecord (encodeRecord r) = some r := by
  obtain ⟨hpay, hemb⟩ := hr
  obtain ⟨i, ts, ch, payload, tags, metadata, embedding⟩ := r
  simp only at hpay hemb
  cases embedding with
  | none =>
      simp [encodeRecord, decodeRecord, List.lookup, asStr, asObj,
        decodeTime_encodeTime, decodeChannel_encodeChannel,
        decodeBytes_encodeBytes payload hpay, decodeTags_encodeTags]
  | some e =>
      have hne : e ≠ [] := hemb e rfl
      simp [encodeRecord, decodeRecord, List.lookup, asStr, asObj,
        decodeTime_encodeTime, decodeChannel_encodeChannel,
        decodeBytes_encodeBytes payload hpay, decodeTags_encodeTags,
        decodeEmbedding_encode e hne]

/-- Every line of a journal written from valid records decodes back. -/
lemma mapOption_decode_all (rs : List MemoryRecord)
    (h : ∀ x ∈ rs, validRecord x) :
    mapOption decodeRecord (rs.map encodeRecord) = some rs :=
  mapOption_map decodeRecord encodeRecord rs
    (fun x hx => decodeRecord_encodeRecord x (h x hx))

/-- C8: JSON serialization of a valid memory record followed by
deserialization is the identity on all fields; consequently `tail(n)` on a
journal built by appending valid records returns the last `n` appended
records in append order, and `append(r)` followed by `tail(1)` yields
exactly `r`. -/
theorem memory_record_roundtrip_and_journal_tail (r : MemoryRecord)
    (rs : List MemoryRecord) (n : Nat) (hr : validRecord r)
    (hrs : ∀ x ∈ rs, validRecord x) :
    decodeRecord (encodeRecord r) = some r
    ∧ journalTail n (rs.map encodeRecord) = some (rs.drop (rs.length - n))
    ∧ journalTail 1 (journalAppend (rs.map encodeRecord) r) = some [r] := by
  refine ⟨decodeRecord_encodeRecord r hr, ?_, ?_⟩
  · unfold journalTail
    by_cases hn : n = 0
    · subst hn
      simp
    · rw [if_neg hn, mapOption_decode_all rs hrs]
      show (if rs.length ≤ n then some rs
        else some (List.drop (rs.length - n) rs)) = some (List.drop (rs.length - n) rs)
      by_cases hlen : rs.length ≤ n
      · rw [if_pos hlen]
        have hz : rs.length - n = 0 := by omega
        simp [hz]
      · rw [if_neg hlen]
  · have happ : journalAppend (rs.map encodeRecord) r = (rs ++ [r]).map encodeRecord := by
      simp [journalAppend]
    have hall : ∀ x ∈ rs ++ [r], validRecord x := by
      intro x hx
      rcases List.mem_append.mp hx with hx | hx
      · exact hrs x hx
      · simp at hx
        subst hx
        exact hr
    rw [happ]
    unfold journalTail
    rw [if_neg (by omega : (1 : Nat) ≠ 0)]
    rw [mapOption_decode_all (rs ++ [r]) hall]
    show (if (rs ++ [r]).length ≤ 1 then some (rs ++ [r])
      else some (List.drop ((rs ++ [r]).length - 1) (rs ++ [r]))) = some [r]
    by_cases hlen : (rs ++ [r]).length ≤ 1
    · rw [if_pos hlen]
      have hz : rs = [] := by
        rcases rs with _ | ⟨x, xs⟩
        · rfl
        · simp at hlen
      subst hz
      rfl
    · rw [if_neg hlen]
      have hl : (rs ++ [r]).length - 1 = rs.length := by simp
      rw [hl, List.drop_left]

/-- Concrete valid record with all fields populated, for the roundtrip
witness. -/
def c8r : MemoryRecord :=
  ⟨"a", (1, 2), .Custom "c", [0, 255], ["t"], [("k", Json.bool true)], some [1]⟩

/-- Concrete pre-existing journal contents for the tail witness. -/
def c8rs : List MemoryRecord := [⟨"b", (3, 4), .Input, [7], [], [], none⟩]

/-- Validity of the witness record. -/
lemma c8r_valid : validRecord c8r := by
  constructor
  · decide
  · intro e he
    injection he with h2
    subst h2
    decide

/-- Validity of the witness journal records. -/
lemma c8rs_valid : ∀ x ∈ c8rs, validRecord x := by
  intro x hx
  simp [c8rs] at hx
  subst hx
  constructor
  · decide
  · intro e he
    exact Option.noConfusion he

/-- Witness for C8 at concrete records, journal contents and limit. -/
theorem memory_record_roundtrip_witness :
    validRecord c8r
    ∧ (decodeRecord (encodeRecord c8r) = some c8r
        ∧ journalTail 2 (c8rs.map encodeRecord) = some (c8rs.drop (c8rs.length - 2))
        ∧ journalTail 1 (journalAppend (c8rs.map encodeRecord) c8r) = some [c8r]) :=
  ⟨c8r_valid,
   memory_record_roundtrip_and_journal_tail c8r c8rs 2 c8r_valid c8rs_valid⟩
